import Mathlib

set_option linter.unusedVariables false
set_option linter.unnecessarySeqFocus false
set_option maxRecDepth 100000

/-!
Verification development for the smart-code-reviewer repository.

The repository's core lives in two Python files:
  * reviewer.py — the review engine: `_extract_json` (fence stripping plus
    JSON parsing of the model reply), `review_code` (request plus validation
    into a `ReviewResult`), and the `CategoryFeedback` / `ReviewResult`
    dataclasses.
  * cli.py — the gating CLI: `review_file` (skip rules, threshold gate) and
    `main` (exit-code aggregation over a list of files).

This file shallowly embeds those functions and proves properties about them.
Machine floats of the source are modelled as exact rationals; the remote
Groq service is modelled as an oracle input (the textual reply, or a
transport failure).  All definitions are structural or fuel-based so that
concrete runs reduce inside the kernel.
-/

/- ── Characters and Python-style whitespace ────────────────────────────── -/

/-- The backtick character, written via its code point. -/
def backtick : Char := Char.ofNat 96

/-- Opening curly brace. -/
def braceL : Char := Char.ofNat 123

/-- Closing curly brace. -/
def braceR : Char := Char.ofNat 125

/-- Double-quote character. -/
def quoteC : Char := Char.ofNat 34

/-- Backslash character. -/
def backslashC : Char := Char.ofNat 92

/-- ASCII whitespace as recognised by Python's `str.strip` and by `\s` in
`re` (space, tab, newline, carriage return, vertical tab, form feed).
Python additionally treats some rare Unicode code points as whitespace;
those never occur in the inputs modelled here. -/
def isPyWS (c : Char) : Bool :=
  c = ' ' || c = '\t' || c = '\n' || c = '\r' || c = Char.ofNat 11 || c = Char.ofNat 12

/-- Drop a maximal run of leading whitespace: the `\s*` part of the fence
regex in `_extract_json` (reviewer.py line 134). -/
def dropWS (l : List Char) : List Char := l.dropWhile isPyWS

/-- Drop one literal `json` tag if present: the `(?:json)?` part of the
fence regex in `_extract_json`. -/
def dropJson (l : List Char) : List Char :=
  match l with
  | c1 :: c2 :: c3 :: c4 :: r =>
    if c1 = 'j' ∧ c2 = 's' ∧ c3 = 'o' ∧ c4 = 'n' then r else l
  | _ => l

/-- Test for the backtick character. -/
def isBT (c : Char) : Bool := c = backtick

/-- Does the text begin with a backtick? -/
def isBThead : List Char → Bool
  | c :: _ => isBT c
  | [] => false

/-- Does the text begin with two backticks? -/
def isBT2head : List Char → Bool
  | c :: r => isBT c && isBThead r
  | [] => false

/-- Does the text begin with three backticks (the start of a fence marker)? -/
def fence3 : List Char → Bool
  | c :: r => isBT c && isBT2head r
  | [] => false

/- ── The fence substitution of `_extract_json` ─────────────────────────── -/

/-- One left-to-right pass of `re.sub(r"<3 backticks>(?:json)?\s*", "", text)`
(reviewer.py line 134), fuel-based so that it is structural: at each
position, if the fence pattern matches it is deleted (three backticks, an
optional `json` tag, then a maximal whitespace run) and scanning resumes
after the match; otherwise the character is emitted. -/
def subFGo : Nat → List Char → List Char
  | 0, l => l
  | _ + 1, [] => []
  | f + 1, c :: cs =>
    if fence3 (c :: cs) then subFGo f (dropWS (dropJson (cs.drop 2)))
    else c :: subFGo f cs

/-- `re.sub` of the fence pattern over the whole text (fuel instantiated). -/
def subFence (l : List Char) : List Char := subFGo l.length l

/-- Python `str.strip` on the left. -/
def stripLeftWS (l : List Char) : List Char := l.dropWhile isPyWS

/-- Python `str.strip` on the right. -/
def stripRightWS (l : List Char) : List Char := (l.reverse.dropWhile isPyWS).reverse

/-- Python `str.strip()`: whitespace removed from both ends. -/
def pyStripChars (l : List Char) : List Char := stripRightWS (stripLeftWS l)

/-- Python `str.rstrip` with a backtick argument (reviewer.py line 135). -/
def rstripBT (l : List Char) : List Char := (l.reverse.dropWhile isBT).reverse

/-- The `cleaned` text of `_extract_json` (reviewer.py lines 134-135):
fence substitution, then `strip()`, then `rstrip` of backticks. -/
def cleanedChars (l : List Char) : List Char := rstripBT (pyStripChars (subFence l))

/-- Python `str.strip()` at `String` type (used by cli.py line 49). -/
def pyStrip (s : String) : String := String.mk (pyStripChars s.data)

/- ── Basic length lemmas and the characterising equations of `subFence` ── -/

theorem dropWhile_length_le (p : Char → Bool) (l : List Char) :
    (l.dropWhile p).length ≤ l.length := by
  induction l with
  | nil => simp [List.dropWhile]
  | cons c cs ih =>
    simp only [List.dropWhile]
    split
    · exact Nat.le_succ_of_le ih
    · simp

theorem dropJson_length_le (l : List Char) : (dropJson l).length ≤ l.length := by
  unfold dropJson
  split
  · split
    · simp only [List.length_cons]
      omega
    · exact Nat.le_refl _
  · exact Nat.le_refl _

theorem subFGo_fuel : ∀ f : Nat, ∀ l : List Char, l.length ≤ f →
    subFGo f l = subFGo l.length l := by
  intro f
  induction f using Nat.strong_induction_on with
  | _ f ih =>
    intro l hl
    match f, l with
    | 0, l =>
      have h0 : l.length = 0 := Nat.le_antisymm hl (Nat.zero_le _)
      have : l = [] := List.length_eq_zero.mp h0
      subst this
      rfl
    | g + 1, [] => rfl
    | g + 1, c :: cs =>
      simp only [subFGo, List.length_cons]
      split
      · -- fence match: both sides recurse on the shortened list
        have hx : (dropWS (dropJson (cs.drop 2))).length ≤ cs.length := by
          have h1 := dropWhile_length_le isPyWS (dropJson (cs.drop 2))
          have h2 := dropJson_length_le (cs.drop 2)
          have h3 : (cs.drop 2).length ≤ cs.length := by
            rw [List.length_drop]
            exact Nat.sub_le _ _
          simp only [dropWS]
          omega
        have hcs : cs.length + 1 ≤ g + 1 := by
          simpa [List.length_cons] using hl
        have e1 : subFGo g (dropWS (dropJson (cs.drop 2)))
            = subFGo (dropWS (dropJson (cs.drop 2))).length (dropWS (dropJson (cs.drop 2))) := by
          exact ih g (Nat.lt_succ_self g) _ (Nat.le_trans hx (by omega))
        have e2 : subFGo cs.length (dropWS (dropJson (cs.drop 2)))
            = subFGo (dropWS (dropJson (cs.drop 2))).length (dropWS (dropJson (cs.drop 2))) := by
          exact ih cs.length (by omega) _ hx
        rw [e1, e2]
      · -- emit: both sides recurse on the tail
        have hcs : cs.length + 1 ≤ g + 1 := by
          simpa [List.length_cons] using hl
        have e1 : subFGo g cs = subFGo cs.length cs :=
          ih g (Nat.lt_succ_self g) cs (by omega)
        rw [e1]

theorem subFence_nil : subFence [] = [] := rfl

theorem subFence_emit (c : Char) (cs : List Char) (h : fence3 (c :: cs) = false) :
    subFence (c :: cs) = c :: subFence cs := by
  simp only [subFence, List.length_cons, subFGo, h]
  simp

theorem subFence_fence (c1 c2 c3 : Char) (rest : List Char)
    (h : fence3 (c1 :: c2 :: c3 :: rest) = true) :
    subFence (c1 :: c2 :: c3 :: rest) = subFence (dropWS (dropJson rest)) := by
  have hx : (dropWS (dropJson rest)).length ≤ rest.length := by
    have h1 := dropWhile_length_le isPyWS (dropJson rest)
    have h2 := dropJson_length_le rest
    simp only [dropWS]
    omega
  simp only [subFence, List.length_cons, subFGo, h, if_true, List.drop_succ_cons,
    List.drop_zero]
  exact subFGo_fuel _ _ (by omega)

/- ── JSON values and a model of Python `json.loads` ────────────────────── -/

/-- JSON values as produced by `json.loads`.  Numbers are modelled as exact
rationals (Python distinguishes `int` from binary `float`; every numeric
literal our claims touch is exactly representable, and the one consumer of
a parsed number either truncates (`int`) or compares (`>=`), for which the
exact rational is faithful).  The `NaN`/`Infinity` extensions of Python's
parser are not representable and are rejected here. -/
inductive Json where
  | null : Json
  | bool (b : Bool) : Json
  | num (q : ℚ) : Json
  | str (s : String) : Json
  | arr (items : List Json) : Json
  | obj (fields : List (String × Json)) : Json

/-- JSON inter-token whitespace (the exact four characters of the JSON
grammar, as in CPython's json module). -/
def isJWS (c : Char) : Bool :=
  c = ' ' || c = '\t' || c = '\n' || c = '\r'

/-- Skip JSON whitespace. -/
def skipJWS (l : List Char) : List Char := l.dropWhile isJWS

/-- Hexadecimal digit value. -/
def hexVal (c : Char) : Option Nat :=
  if c.isDigit then some (c.toNat - 48)
  else if 'a' ≤ c ∧ c ≤ 'f' then some (c.toNat - 87)
  else if 'A' ≤ c ∧ c ≤ 'F' then some (c.toNat - 55)
  else none

/-- Decimal digits to a natural number. -/
def digitsToNat (l : List Char) : Nat :=
  l.foldl (fun a c => a * 10 + (c.toNat - 48)) 0

/-- JSON string body parser (after the opening quote): returns the decoded
characters and the rest after the closing quote.  Escapes are decoded as in
CPython's strict mode: raw control characters are rejected, `\uXXXX`
surrogate pairs are combined.  (Python tolerates lone surrogates, which are
not representable as Lean `Char`; they never occur in the modelled replies.) -/
def pStr : Nat → List Char → Option (List Char × List Char)
  | 0, _ => none
  | f + 1, l =>
    match l with
    | [] => none
    | c :: r =>
      if c = quoteC then some ([], r)
      else if c = backslashC then
        match r with
        | [] => none
        | e :: r2 =>
          if e = quoteC then (pStr f r2).map (fun p => (quoteC :: p.1, p.2))
          else if e = backslashC then (pStr f r2).map (fun p => (backslashC :: p.1, p.2))
          else if e = '/' then (pStr f r2).map (fun p => ('/' :: p.1, p.2))
          else if e = 'b' then (pStr f r2).map (fun p => (Char.ofNat 8 :: p.1, p.2))
          else if e = 'f' then (pStr f r2).map (fun p => (Char.ofNat 12 :: p.1, p.2))
          else if e = 'n' then (pStr f r2).map (fun p => ('\n' :: p.1, p.2))
          else if e = 'r' then (pStr f r2).map (fun p => ('\r' :: p.1, p.2))
          else if e = 't' then (pStr f r2).map (fun p => ('\t' :: p.1, p.2))
          else if e = 'u' then
            match r2 with
            | h1 :: h2 :: h3 :: h4 :: r3 =>
              match hexVal h1, hexVal h2, hexVal h3, hexVal h4 with
              | some a, some b, some c3, some d =>
                let code := ((a * 16 + b) * 16 + c3) * 16 + d
                if 0xD800 ≤ code ∧ code ≤ 0xDBFF then
                  match r3 with
                  | b1 :: u2 :: h5 :: h6 :: h7 :: h8 :: r4 =>
                    if b1 = backslashC ∧ u2 = 'u' then
                      match hexVal h5, hexVal h6, hexVal h7, hexVal h8 with
                      | some a2, some b2, some c4, some d2 =>
                        let lo := ((a2 * 16 + b2) * 16 + c4) * 16 + d2
                        if 0xDC00 ≤ lo ∧ lo ≤ 0xDFFF then
                          (pStr f r4).map (fun p =>
                            (Char.ofNat (0x10000 + (code - 0xD800) * 0x400 + (lo - 0xDC00)) :: p.1, p.2))
                        else none
                      | _, _, _, _ => none
                    else none
                  | _ => none
                else if 0xDC00 ≤ code ∧ code ≤ 0xDFFF then none
                else (pStr f r3).map (fun p => (Char.ofNat code :: p.1, p.2))
              | _, _, _, _ => none
            | _ => none
          else none
      else if c.toNat < 32 then none
      else (pStr f r).map (fun p => (c :: p.1, p.2))

/-- JSON number tokenizer, mirroring CPython's `NUMBER_RE`
(`-?(0|[1-9]\d*)(\.\d+)?([eE][-+]?\d+)?`): a fractional part or exponent
that fails to match is left unconsumed rather than reported here (the
caller then fails on the unconsumed rest, as CPython does). -/
def pNum (l : List Char) : Option (ℚ × List Char) :=
  let sg : ℤ × List Char :=
    match l with
    | c :: r => if c = '-' then ((-1 : ℤ), r) else ((1 : ℤ), l)
    | [] => ((1 : ℤ), l)
  match sg.2 with
  | [] => none
  | c :: cr =>
    if c.isDigit = false then none
    else
      let ip : List Char × List Char :=
        if c = '0' then ([c], cr)
        else (sg.2.takeWhile Char.isDigit, sg.2.dropWhile Char.isDigit)
      let fr : List Char × List Char :=
        match ip.2 with
        | d :: r =>
          if d = '.' ∧ (r.takeWhile Char.isDigit) ≠ [] then
            (r.takeWhile Char.isDigit, r.dropWhile Char.isDigit)
          else ([], ip.2)
        | [] => ([], ip.2)
      let ex : ℤ × List Char :=
        match fr.2 with
        | e :: s :: r =>
          if e = 'e' ∨ e = 'E' then
            if s = '+' then
              match r.takeWhile Char.isDigit with
              | [] => ((0 : ℤ), fr.2)
              | ds => ((digitsToNat ds : ℤ), r.dropWhile Char.isDigit)
            else if s = '-' then
              match r.takeWhile Char.isDigit with
              | [] => ((0 : ℤ), fr.2)
              | ds => (-(digitsToNat ds : ℤ), r.dropWhile Char.isDigit)
            else
              match (s :: r).takeWhile Char.isDigit with
              | [] => ((0 : ℤ), fr.2)
              | ds => ((digitsToNat ds : ℤ), (s :: r).dropWhile Char.isDigit)
          else ((0 : ℤ), fr.2)
        | _ => ((0 : ℤ), fr.2)
      let mant : ℤ := sg.1 * ((digitsToNat ip.1 : ℤ) * 10 ^ fr.1.length + (digitsToNat fr.1 : ℤ))
      let e10 : ℤ := ex.1 - fr.1.length
      let q : ℚ :=
        if 0 ≤ e10 then Rat.divInt (mant * 10 ^ e10.toNat) 1
        else Rat.divInt mant (10 ^ (-e10).toNat)
      some (q, ex.2)

mutual

/-- JSON value parser (fuel-based model of CPython's `json.loads` scanner).
Returns the value and the unconsumed rest. -/
def pVal : Nat → List Char → Option (Json × List Char)
  | 0, _ => none
  | f + 1, l =>
    match skipJWS l with
    | [] => none
    | c :: r =>
      if c = quoteC then (pStr (r.length + 1) r).map (fun p => (Json.str (String.mk p.1), p.2))
      else if c = braceL then pObj f r
      else if c = '[' then pArr f r
      else
        match c :: r with
        | 't' :: 'r' :: 'u' :: 'e' :: r2 => some (Json.bool true, r2)
        | 'f' :: 'a' :: 'l' :: 's' :: 'e' :: r2 => some (Json.bool false, r2)
        | 'n' :: 'u' :: 'l' :: 'l' :: r2 => some (Json.null, r2)
        | l2 => (pNum l2).map (fun p => (Json.num p.1, p.2))

/-- Array parser, after the opening bracket. -/
def pArr : Nat → List Char → Option (Json × List Char)
  | 0, _ => none
  | f + 1, l =>
    match skipJWS l with
    | [] => none
    | c :: r =>
      if c = ']' then some (Json.arr [], r)
      else (pArrItems f (c :: r)).map (fun p => (Json.arr p.1, p.2))

/-- One-or-more comma-separated array items, ending at the closing bracket. -/
def pArrItems : Nat → List Char → Option (List Json × List Char)
  | 0, _ => none
  | f + 1, l =>
    match pVal f l with
    | none => none
    | some (v, r) =>
      match skipJWS r with
      | c :: r2 =>
        if c = ']' then some ([v], r2)
        else if c = ',' then
          match pArrItems f r2 with
          | none => none
          | some (vs, r3) => some (v :: vs, r3)
        else none
      | [] => none

/-- Object parser, after the opening brace. -/
def pObj : Nat → List Char → Option (Json × List Char)
  | 0, _ => none
  | f + 1, l =>
    match skipJWS l with
    | [] => none
    | c :: r =>
      if c = braceR then some (Json.obj [], r)
      else (pMembers f (c :: r)).map (fun p => (Json.obj p.1, p.2))

/-- One-or-more comma-separated `"key": value` members, ending at the
closing brace.  Keys must be strings, as in JSON. -/
def pMembers : Nat → List Char → Option (List (String × Json) × List Char)
  | 0, _ => none
  | f + 1, l =>
    match skipJWS l with
    | c :: r =>
      if c = quoteC then
        match pStr (r.length + 1) r with
        | none => none
        | some (k, r2) =>
          match skipJWS r2 with
          | c2 :: r4 =>
            if c2 = ':' then
              match pVal f r4 with
              | none => none
              | some (v, r5) =>
                match skipJWS r5 with
                | c3 :: r7 =>
                  if c3 = braceR then some ([(String.mk k, v)], r7)
                  else if c3 = ',' then
                    match pMembers f r7 with
                    | none => none
                    | some (ms, r8) => some ((String.mk k, v) :: ms, r8)
                  else none
                | [] => none
            else none
          | [] => none
      else none
    | [] => none

end

/-- Model of `json.loads`: parse one JSON value and require only whitespace
after it.  The fuel is generous: every three fuel decrements consume at
least one input character, so any reply CPython accepts is parsed within
`3 * length + 12` fuel. -/
def jsonParse (s : String) : Option Json :=
  match pVal (3 * s.data.length + 12) s.data with
  | none => none
  | some (v, rest) => if skipJWS rest = [] then some v else none

/-- reviewer.py `_extract_json` (lines 131-136): strip fence markers, strip
whitespace and trailing backticks, then `json.loads`.  A `none` result is
the `json.JSONDecodeError` of the source. -/
def extract_json (text : String) : Option Json :=
  jsonParse (String.mk (cleanedChars text.data))

example : jsonParse (String.mk [braceL, braceR]) = some (Json.obj []) := by rfl

/- ── Review data model (reviewer.py lines 21-42) ───────────────────────── -/

/-- reviewer.py line 21. -/
def REVIEW_CATEGORIES : List String := ["Readability", "Structure", "Maintainability"]

/-- `CategoryFeedback` (reviewer.py lines 24-31).  Python dataclass type
annotations are not enforced at runtime: `category`, `summary` and
`suggestions` receive whatever JSON value the reply held, so they are
modelled as `Json`.  Only `score` is actually coerced, by `int(...)`. -/
structure CategoryFeedback where
  category : Json
  score : ℤ
  summary : Json
  suggestions : Json

/-- `ReviewResult` (reviewer.py lines 34-42).  As above, `language` and
`tldr` are unvalidated `Json`; `overall_score` is coerced by
`round(float(...), 1)`. -/
structure ReviewResult where
  language : Json
  categories : List CategoryFeedback
  overall_score : ℚ
  tldr : Json
  raw_response : String

/- ── Python coercions used by `review_code` ────────────────────────────── -/

/-- Key strings of the reply schema. -/
def kCategory : String := "category"

def kScore : String := "score"

def kSummary : String := "summary"

def kSuggestions : String := "suggestions"

def kCategories : String := "categories"

def kOverall : String := "overall_score"

def kLanguage : String := "language"

def kTldr : String := "tldr"

def sUnknown : String := "Unknown"

def sEmpty : String := ""

/-- Dictionary lookup with the last-wins semantics of `json.loads`
(duplicate keys overwrite earlier ones when the dict is built). -/
def jlookup (fields : List (String × Json)) (k : String) : Option Json :=
  fields.foldl (fun acc p => if p.1 = k then some p.2 else acc) none

/-- Python iteration (`for cat in data["categories"]`): a list yields its
items; a string yields its characters as one-character strings; a dict
yields its keys; any other value raises `TypeError` (`none` here). -/
def pyIter : Json → Option (List Json)
  | Json.arr l => some l
  | Json.str s => some (s.data.map (fun c => Json.str (String.mk [c])))
  | Json.obj fs => some (fs.map (fun p => Json.str p.1))
  | _ => none

/-- Digit run with Python's underscore rule (`1_000`): underscores may only
separate digits.  Accumulates the value; `none` models `ValueError`. -/
def digitsUGo : List Char → Nat → Option Nat
  | [], acc => some acc
  | c :: r, acc =>
    if c.isDigit then digitsUGo r (acc * 10 + (c.toNat - 48))
    else if c = '_' then
      match r with
      | d :: r2 => if d.isDigit then digitsUGo r2 (acc * 10 + (d.toNat - 48)) else none
      | [] => none
    else none

/-- Python `int(str)`: optional surrounding whitespace, optional sign, then
a digit run (underscore separators allowed).  (Python also accepts some
Unicode digits; not modelled.) -/
def pyIntStr (s : String) : Option ℤ :=
  match pyStripChars s.data with
  | [] => none
  | c :: r =>
    if c = '-' then
      match r with
      | d :: r2 => if d.isDigit then (digitsUGo r2 (d.toNat - 48)).map (fun n => -(n : ℤ)) else none
      | [] => none
    else if c = '+' then
      match r with
      | d :: r2 => if d.isDigit then (digitsUGo r2 (d.toNat - 48)).map (fun n => (n : ℤ)) else none
      | [] => none
    else if c.isDigit then (digitsUGo r (c.toNat - 48)).map (fun n => (n : ℤ))
    else none

/-- Python `int(x)` on a JSON value: ints/floats truncate toward zero,
bools map to 0/1, numeric strings parse; everything else raises
(`TypeError`), modelled as `none`. -/
def pyInt : Json → Option ℤ
  | Json.num q => some (Int.tdiv q.num q.den)
  | Json.bool b => some (if b then 1 else 0)
  | Json.str s => pyIntStr s
  | _ => none

/-- Digit run for `float(str)`: returns value, digit count and rest;
`none` models a malformed underscore placement. -/
def digitsRunGo : List Char → Nat → Nat → Option (Nat × Nat × List Char)
  | [], acc, cnt => some (acc, cnt, [])
  | c :: r, acc, cnt =>
    if c.isDigit then digitsRunGo r (acc * 10 + (c.toNat - 48)) (cnt + 1)
    else if c = '_' ∧ 0 < cnt then
      match r with
      | d :: r2 => if d.isDigit then digitsRunGo r2 (acc * 10 + (d.toNat - 48)) (cnt + 1) else none
      | [] => none
    else some (acc, cnt, c :: r)

/-- Build the exact rational `sign * (i * 10^fcnt + f) * 10^(e - fcnt)`. -/
def mkDecimal (sgn : ℤ) (ival fval fcnt : Nat) (e : ℤ) : ℚ :=
  let mant : ℤ := sgn * ((ival : ℤ) * 10 ^ fcnt + (fval : ℤ))
  let e10 : ℤ := e - (fcnt : ℤ)
  if 0 ≤ e10 then Rat.divInt (mant * 10 ^ e10.toNat) 1
  else Rat.divInt mant (10 ^ (-e10).toNat)

/-- Exponent suffix of `float(str)`: requires the whole rest to be consumed. -/
def pyFloatExp (l : List Char) : Option ℤ :=
  match l with
  | [] => some 0
  | e :: r =>
    if e = 'e' ∨ e = 'E' then
      match r with
      | [] => none
      | s :: r2 =>
        if s = '-' then
          match digitsRunGo r2 0 0 with
          | some (v, cnt, []) => if 0 < cnt then some (-(v : ℤ)) else none
          | _ => none
        else if s = '+' then
          match digitsRunGo r2 0 0 with
          | some (v, cnt, []) => if 0 < cnt then some ((v : ℤ)) else none
          | _ => none
        else
          match digitsRunGo (s :: r2) 0 0 with
          | some (v, cnt, []) => if 0 < cnt then some ((v : ℤ)) else none
          | _ => none
    else none

/-- Python `float(str)` on the stripped body (sign already removed):
`digits [. digits]` or `. digits`, then an optional exponent.  (`inf` and
`nan` are accepted by Python but have no rational value; on the only path
that reaches them, `round(inf, 1)` then raises `OverflowError`, so the
review fails either way and `none` is observationally faithful; `nan` never
occurs in the modelled replies.) -/
def pyFloatBody (sgn : ℤ) (l : List Char) : Option ℚ :=
  match digitsRunGo l 0 0 with
  | none => none
  | some (ival, icnt, r1) =>
    match r1 with
    | '.' :: r2 =>
      match digitsRunGo r2 0 0 with
      | none => none
      | some (fval, fcnt, r3) =>
        if icnt = 0 ∧ fcnt = 0 then none
        else (pyFloatExp r3).map (fun e => mkDecimal sgn ival fval fcnt e)
    | _ =>
      if icnt = 0 then none
      else (pyFloatExp r1).map (fun e => mkDecimal sgn ival 0 0 e)

/-- Python `float(str)`: strip whitespace, optional sign, then the body. -/
def pyFloatStr (s : String) : Option ℚ :=
  match pyStripChars s.data with
  | [] => none
  | c :: r =>
    if c = '-' then pyFloatBody (-1) r
    else if c = '+' then pyFloatBody 1 r
    else pyFloatBody 1 (c :: r)

/-- Python `float(x)` on a JSON value: numbers pass through, bools map to
0/1, strings parse; everything else raises (`TypeError`), modelled `none`. -/
def pyFloat : Json → Option ℚ
  | Json.num q => some q
  | Json.bool b => some (if b then 1 else 0)
  | Json.str s => pyFloatStr s
  | _ => none

/-- Numerator of `round(x, 1)`: the integer nearest `10 * x`, ties to even
(Python's `round`; on the exact rationals modelled here this is the ideal
half-even rounding). -/
def roundHalfEven10 (q : ℚ) : ℤ :=
  let n := 10 * q.num
  let d := (q.den : ℤ)
  let f := Int.fdiv n d
  let r2 := 2 * (n - f * d)
  if r2 < d then f
  else if d < r2 then f + 1
  else if f % 2 = 0 then f else f + 1

/-- Python `round(x, 1)` (reviewer.py line 170). -/
def round1 (q : ℚ) : ℚ := Rat.divInt (roundHalfEven10 q) 10

/- ── `review_code` (reviewer.py lines 139-173) ─────────────────────────── -/

/-- One element of the `categories` list comprehension (reviewer.py lines
157-165): subscripts raise `KeyError`/`TypeError` on a missing key or a
non-dict entry, `int(...)` raises on a non-coercible score; `suggestions`
defaults to the empty list via `.get`.  `none` models any raised error. -/
def parseCat (c : Json) : Option CategoryFeedback :=
  match c with
  | Json.obj fs =>
    match jlookup fs kCategory with
    | none => none
    | some catv =>
      match jlookup fs kScore with
      | none => none
      | some sv =>
        match pyInt sv with
        | none => none
        | some n =>
          match jlookup fs kSummary with
          | none => none
          | some sumv =>
            some ⟨catv, n, sumv, (jlookup fs kSuggestions).getD (Json.arr [])⟩
  | _ => none

/-- The validation/coercion phase of `review_code` (reviewer.py lines
157-173), applied to the parsed reply `data` with the raw reply text kept
for `raw_response`.  Evaluation order follows the source: the categories
comprehension first, then the `ReviewResult` keyword arguments.  `none`
models any raised error (`KeyError`, `TypeError`, `ValueError`); note that
no category-name check against `REVIEW_CATEGORIES` occurs anywhere. -/
def validate_review (data : Json) (raw : String) : Option ReviewResult :=
  match data with
  | Json.obj fields =>
    (jlookup fields kCategories).bind fun catsJ =>
    (pyIter catsJ).bind fun items =>
    (items.mapM parseCat).bind fun cats =>
    (jlookup fields kOverall).bind fun osJ =>
    (pyFloat osJ).map fun q =>
      { language := (jlookup fields kLanguage).getD (Json.str sUnknown)
        categories := cats
        overall_score := round1 q
        tldr := (jlookup fields kTldr).getD (Json.str sEmpty)
        raw_response := raw }
  | _ => none

/-- The reply-to-result pipeline of `review_code`: `_extract_json` then
validation.  `none` = an exception escapes `review_code` (the spec's
`MalformedResponseError`); a `ReviewResult` is only ever built whole. -/
def parse_review (raw : String) : Option ReviewResult :=
  match extract_json raw with
  | none => none
  | some data => validate_review data raw

/-- Error taxonomy of a review call, per the spec's §7 (the source raises
`RuntimeError` for a missing client and lets `groq` / parsing exceptions
propagate; they are grouped here by kind). -/
inductive ReviewError where
  | noClient : ReviewError
  | transport : ReviewError
  | malformed : ReviewError

/-- Outcome of one `review_code` call, plus whether the call reached the
remote service (`_client.chat.completions.create`). -/
structure ReviewCall where
  outcome : Except ReviewError ReviewResult
  requested : Bool

/-- reviewer.py `review_code` (lines 139-173).  `client` models the global
`_client` set by `configure_groq`; `remote` is the service oracle: the
reply text of `response.choices[0].message.content`, or a transport
failure.  Note there is no emptiness check of `code` anywhere: with a
configured client the request is always issued. -/
def review_code (client : Option Unit) (code : String) (remote : Except Unit String) :
    ReviewCall :=
  match client with
  | none => ⟨Except.error ReviewError.noClient, false⟩
  | some _ =>
    match remote with
    | Except.error _ => ⟨Except.error ReviewError.transport, true⟩
    | Except.ok raw =>
      match parse_review raw with
      | some r => ⟨Except.ok r, true⟩
      | none => ⟨Except.error ReviewError.malformed, true⟩

/- ── The CLI (cli.py) ──────────────────────────────────────────────────── -/

/-- cli.py line 41. -/
def code_extensions : List String :=
  [".py", ".js", ".jsx", ".ts", ".tsx", ".go", ".rs", ".cpp", ".c", ".java"]

/-- `pathlib.Path(p).suffix`: the final dot-suffix of the last path
component, empty when the name has no dot, starts with its only dot, or
ends with its last dot.  (Dot-only components such as `a/.` are not
normalised away; such paths do not occur in gating use.) -/
def pathSuffix (p : String) : String :=
  let rname := (p.data.reverse.dropWhile (fun c => c = '/')).takeWhile (fun c => c ≠ '/')
  let pre := rname.takeWhile (fun c => c ≠ '.')
  if pre.length < rname.length ∧ 0 < pre.length ∧ pre.length < rname.length - 1 then
    String.mk ('.' :: pre.reverse)
  else String.mk []

/-- One file as the CLI sees it: its path, whether `Path(p).exists()`, the
text `open(p).read()` would yield, and the remote-service oracle for the
review call that would be made on its content. -/
structure FileInput where
  path : String
  existsF : Bool
  content : String
  remote : Except Unit String

/-- The observable outcome of `review_file`: the returned `passed` flag and
score, plus whether the remote service was invoked.  (The colored
human-readable message of the source is presentation-only and elided.) -/
structure ReviewFileOut where
  passed : Bool
  score : ℚ
  called : Bool

/-- cli.py `review_file` (lines 35-93): skip missing files, non-code
extensions and empty/whitespace-only content (returned as passed, score
0.0, no service call); otherwise review and compare
`result.overall_score >= threshold`; any exception yields
`(False, error message, 0.0)`. -/
def review_file (client : Option Unit) (f : FileInput) (threshold : ℚ) : ReviewFileOut :=
  if f.existsF = false then ⟨true, 0, false⟩
  else if pathSuffix f.path ∉ code_extensions then ⟨true, 0, false⟩
  else if (pyStrip f.content).isEmpty then ⟨true, 0, false⟩
  else
    match review_code client f.content f.remote with
    | ⟨Except.ok r, req⟩ => ⟨decide (threshold ≤ r.overall_score), r.overall_score, req⟩
    | ⟨Except.error _, req⟩ => ⟨false, 0, req⟩

/-- Python truthiness of `GROQ_API_KEY` (cli.py line 101): `os.getenv`
yields `None` or a string; `not key` is true for `None` and `""`. -/
def keyPresent : Option String → Bool
  | none => false
  | some s => !s.isEmpty

/-- cli.py `main` (lines 96-149): exit 1 without a credential; exit 0 on an
empty file list; otherwise review every file, collect the failures, and
exit 1 iff any file failed.  (Named `cliMain` because `main` is reserved
for executable entry points in Lean.) -/
def cliMain (apiKey : Option String) (threshold : ℚ) (files : List FileInput) : Nat :=
  if keyPresent apiKey = false then 1
  else
    let client : Option Unit := some ()
    if files.isEmpty then 0
    else
      let failed := files.filter (fun f => !(review_file client f threshold).passed)
      if failed.isEmpty then 0 else 1


/- ── Lemmas about fence stripping (towards claims C7 and C10) ──────────── -/

theorem dropWhileAppend (p : Char → Bool) (a b : List Char) :
    (a ++ b).dropWhile p =
      if (a.dropWhile p).isEmpty then b.dropWhile p else a.dropWhile p ++ b := by
  induction a with
  | nil => simp
  | cons c cs ih =>
    simp only [List.cons_append, List.dropWhile_cons]
    by_cases h : p c = true
    · simpa [h] using ih
    · simp [h]

theorem mem_takeWhile_ws (p : Char → Bool) (l : List Char) :
    ∀ c ∈ l.takeWhile p, p c = true := by
  induction l with
  | nil => simp [List.takeWhile]
  | cons a as ih =>
    simp only [List.takeWhile]
    split
    · intro c hc
      rcases List.mem_cons.mp hc with h | h
      · subst h; assumption
      · exact ih c h
    · simp

theorem ws_not_bt (c : Char) (h : isPyWS c = true) : isBT c = false := by
  by_contra hb
  simp only [Bool.not_eq_false] at hb
  have hc : c = backtick := by simpa [isBT] using hb
  subst hc
  revert h
  decide

theorem fence3_cons3 (c1 c2 c3 : Char) (x : List Char) :
    fence3 (c1 :: c2 :: c3 :: x) = (isBT c1 && isBT c2 && isBT c3) := by
  simp [fence3, isBT2head, isBThead, Bool.and_assoc]

theorem fence3_head_false (c : Char) (cs : List Char) (h : isBT c = false) :
    fence3 (c :: cs) = false := by
  simp [fence3, h]

theorem subFence_ws_pass (w : List Char) (l : List Char)
    (hw : ∀ c ∈ w, isPyWS c = true) : subFence (w ++ l) = w ++ subFence l := by
  induction w with
  | nil => simp
  | cons c w' ih =>
    have hc : isPyWS c = true := hw c (by simp)
    have hbt : isBT c = false := ws_not_bt c hc
    rw [List.cons_append, subFence_emit c (w' ++ l) (fence3_head_false c _ hbt),
      ih (fun d hd => hw d (by simp [hd]))]
    rfl

/-- The trailing fence added when a reply is wrapped. -/
def fenceTail : List Char := '\n' :: backtick :: backtick :: backtick :: []

theorem dropJson_cons_ne (c : Char) (x : List Char) (h : ¬(c = 'j')) :
    dropJson (c :: x) = c :: x := by
  match x with
  | [] => rfl
  | [a] => rfl
  | [a, a2] => rfl
  | a :: a2 :: a3 :: r =>
    show (if c = 'j' ∧ a = 's' ∧ a2 = 'o' ∧ a3 = 'n' then r else c :: a :: a2 :: a3 :: r) = _
    rw [if_neg]
    rintro ⟨hc, -⟩
    exact h hc

theorem dropJson_append_tail (r : List Char) :
    dropJson (r ++ fenceTail) = dropJson r ++ fenceTail := by
  match r with
  | [] => rfl
  | [c1] =>
    show dropJson (c1 :: fenceTail) = [c1] ++ fenceTail
    rcases Decidable.em (c1 = 'j') with hc | hc
    · subst hc; rfl
    · rw [dropJson_cons_ne _ _ hc]; rfl
  | [c1, c2] =>
    show (if c1 = 'j' ∧ c2 = 's' ∧ '\n' = 'o' ∧ backtick = 'n' then _ else _) = _
    rw [if_neg]
    · rfl
    · rintro ⟨-, -, h3, -⟩
      exact absurd h3 (by decide)
  | [c1, c2, c3] =>
    show (if c1 = 'j' ∧ c2 = 's' ∧ c3 = 'o' ∧ '\n' = 'n' then _ else _) = _
    rw [if_neg]
    · rfl
    · rintro ⟨-, -, -, h4⟩
      exact absurd h4 (by decide)
  | c1 :: c2 :: c3 :: c4 :: rr =>
    show (if c1 = 'j' ∧ c2 = 's' ∧ c3 = 'o' ∧ c4 = 'n' then rr ++ fenceTail
          else c1 :: c2 :: c3 :: c4 :: (rr ++ fenceTail)) = dropJson (c1 :: c2 :: c3 :: c4 :: rr) ++ fenceTail
    by_cases hc : c1 = 'j' ∧ c2 = 's' ∧ c3 = 'o' ∧ c4 = 'n'
    · rw [if_pos hc]
      show _ = (if c1 = 'j' ∧ c2 = 's' ∧ c3 = 'o' ∧ c4 = 'n' then rr else _) ++ fenceTail
      rw [if_pos hc]
    · rw [if_neg hc]
      show _ = (if c1 = 'j' ∧ c2 = 's' ∧ c3 = 'o' ∧ c4 = 'n' then rr else c1 :: c2 :: c3 :: c4 :: rr) ++ fenceTail
      rw [if_neg hc]
      rfl

theorem fence3_append_tail (c : Char) (cs : List Char) (h : fence3 (c :: cs) = false) :
    fence3 (c :: (cs ++ fenceTail)) = false := by
  match cs with
  | [] =>
    show fence3 (c :: fenceTail) = false
    simp [fence3, fenceTail, isBT2head, isBThead, isBT]
    intro h1 h2
    exact absurd h2 (by decide)
  | [c2] =>
    show fence3 (c :: c2 :: fenceTail) = false
    simp [fence3, fenceTail, isBT2head, isBThead, isBT]
    intro h1 h2 h3
    exact absurd h3 (by decide)
  | c2 :: c3 :: rest =>
    rw [show c :: ((c2 :: c3 :: rest) ++ fenceTail) = c :: c2 :: c3 :: (rest ++ fenceTail) by rfl]
    rw [fence3_cons3] at h ⊢
    exact h

theorem subFence_append_tail : ∀ l : List Char,
    subFence (l ++ fenceTail) = subFence l ∨
    subFence (l ++ fenceTail) = subFence l ++ ['\n'] := by
  suffices H : ∀ n : Nat, ∀ l : List Char, l.length ≤ n →
      subFence (l ++ fenceTail) = subFence l ∨
      subFence (l ++ fenceTail) = subFence l ++ ['\n'] by
    exact fun l => H l.length l (Nat.le_refl _)
  intro n
  induction n using Nat.strong_induction_on with
  | _ n ih =>
    intro l hl
    match l with
    | [] => exact Or.inr rfl
    | c :: cs =>
      by_cases hf : fence3 (c :: cs) = true
      · -- l starts with a fence marker; expose the three backticks
        match cs, hf with
        | [], hf => simp [fence3, isBT2head] at hf
        | [c2], hf => simp [fence3, isBT2head, isBThead] at hf
        | c2 :: c3 :: rest, hf =>
          have hl3 : rest.length + 3 ≤ n := by
            simpa [List.length_cons] using hl
          have hf' : fence3 (c :: c2 :: c3 :: (rest ++ fenceTail)) = true := by
            rw [fence3_cons3] at hf ⊢
            exact hf
          rw [show (c :: c2 :: c3 :: rest) ++ fenceTail = c :: c2 :: c3 :: (rest ++ fenceTail) by rfl]
          rw [subFence_fence _ _ _ _ hf', subFence_fence _ _ _ _ hf]
          rw [dropJson_append_tail]
          by_cases hD : ((dropJson rest).dropWhile isPyWS).isEmpty
          · have e1 : dropWS (dropJson rest ++ fenceTail) = backtick :: backtick :: backtick :: [] := by
              simp only [dropWS]
              rw [dropWhileAppend, if_pos hD]
              rfl
            have e2 : dropWS (dropJson rest) = [] := by
              simp only [dropWS]
              simpa [List.isEmpty_iff] using hD
            rw [e1, e2]
            exact Or.inl rfl
          · have e1 : dropWS (dropJson rest ++ fenceTail) = dropWS (dropJson rest) ++ fenceTail := by
              simp only [dropWS]
              rw [dropWhileAppend, if_neg hD]
            rw [e1]
            have hlen : (dropWS (dropJson rest)).length ≤ rest.length := by
              have h1 := dropWhile_length_le isPyWS (dropJson rest)
              have h2 := dropJson_length_le rest
              simp only [dropWS]
              omega
            exact ih rest.length (by omega) _ hlen
      · have hf0 : fence3 (c :: cs) = false := by
          revert hf
          cases fence3 (c :: cs) <;> simp
        have hf' : fence3 (c :: (cs ++ fenceTail)) = false := fence3_append_tail c cs hf0
        rw [show (c :: cs) ++ fenceTail = c :: (cs ++ fenceTail) by rfl]
        rw [subFence_emit c (cs ++ fenceTail) hf', subFence_emit c cs hf0]
        have hcs : cs.length ≤ n - 1 := by
          simp only [List.length_cons] at hl
          omega
        rcases ih cs.length (by simp only [List.length_cons] at hl; omega) cs (Nat.le_refl _) with h1 | h1
        · exact Or.inl (by rw [h1])
        · exact Or.inr (by rw [h1]; rfl)

theorem stripRight_append_ws (y : List Char) (c : Char) (h : isPyWS c = true) :
    stripRightWS (y ++ [c]) = stripRightWS y := by
  simp [stripRightWS, List.reverse_append, List.dropWhile_cons, h]

theorem pyStrip_append_nl (x : List Char) :
    pyStripChars (x ++ ['\n']) = pyStripChars x := by
  unfold pyStripChars stripLeftWS
  rw [dropWhileAppend]
  by_cases h : (x.dropWhile isPyWS).isEmpty
  · rw [if_pos h]
    have hx : x.dropWhile isPyWS = [] := by simpa [List.isEmpty_iff] using h
    rw [hx]
    rfl
  · rw [if_neg h]
    exact stripRight_append_ws _ '\n' (by decide)

theorem pyStrip_ws_prefix (w x : List Char) (hw : ∀ c ∈ w, isPyWS c = true) :
    pyStripChars (w ++ x) = pyStripChars x := by
  unfold pyStripChars stripLeftWS
  rw [dropWhileAppend, if_pos]
  simp only [List.isEmpty_iff, List.dropWhile_eq_nil_iff]
  exact hw

/-- The leading fence added when a reply is wrapped (with or without the
`json` language tag). -/
def fenceOpen (b : Bool) : List Char :=
  backtick :: backtick :: backtick :: (if b then 'j' :: 's' :: 'o' :: 'n' :: '\n' :: [] else ['\n'])

/-- A reply wrapped in a markdown code fence, optionally tagged `json`. -/
def wrapFence (b : Bool) (R : String) : String :=
  String.mk (fenceOpen b ++ R.data ++ fenceTail)

theorem cleaned_wrap (b : Bool) (R : List Char) :
    cleanedChars (fenceOpen b ++ R ++ fenceTail) = cleanedChars R := by
  unfold cleanedChars
  suffices hs : pyStripChars (subFence (fenceOpen b ++ R ++ fenceTail))
      = pyStripChars (subFence R) by rw [hs]
  have h1 : subFence (fenceOpen b ++ R ++ fenceTail) = subFence (dropWS (R ++ fenceTail)) := by
    cases b
    · rw [show fenceOpen false ++ R ++ fenceTail
          = backtick :: backtick :: backtick :: ('\n' :: (R ++ fenceTail)) by
        simp [fenceOpen]]
      rw [subFence_fence _ _ _ _ (by simp [fence3_cons3, isBT])]
      rw [dropJson_cons_ne _ _ (by decide)]
      simp only [dropWS, List.dropWhile_cons]
      rw [if_pos (by decide)]
    · rw [show fenceOpen true ++ R ++ fenceTail
          = backtick :: backtick :: backtick :: ('j' :: 's' :: 'o' :: 'n' :: '\n' :: (R ++ fenceTail)) by
        simp [fenceOpen]]
      rw [subFence_fence _ _ _ _ (by simp [fence3_cons3, isBT])]
      rw [show dropJson ('j' :: 's' :: 'o' :: 'n' :: '\n' :: (R ++ fenceTail))
          = '\n' :: (R ++ fenceTail) by simp [dropJson]]
      simp only [dropWS, List.dropWhile_cons]
      rw [if_pos (by decide)]
  rw [h1]
  by_cases h2 : (R.dropWhile isPyWS).isEmpty
  · have hR : R.dropWhile isPyWS = [] := by simpa [List.isEmpty_iff] using h2
    have hall : ∀ c ∈ R, isPyWS c = true := List.dropWhile_eq_nil_iff.mp hR
    have e1 : dropWS (R ++ fenceTail) = backtick :: backtick :: backtick :: [] := by
      simp only [dropWS]
      rw [dropWhileAppend, if_pos h2]
      rfl
    rw [e1]
    have e2 : subFence (backtick :: backtick :: backtick :: []) = [] := rfl
    rw [e2]
    have e3 : subFence R = R := by
      have := subFence_ws_pass R [] hall
      simpa [subFence_nil] using this
    rw [e3]
    have e4 : pyStripChars R = [] := by
      have := pyStrip_ws_prefix R [] hall
      simpa using this
    rw [e4]
    rfl
  · have e1 : dropWS (R ++ fenceTail) = R.dropWhile isPyWS ++ fenceTail := by
      simp only [dropWS]
      rw [dropWhileAppend, if_neg h2]
    rw [e1]
    have e4 : subFence R = R.takeWhile isPyWS ++ subFence (R.dropWhile isPyWS) := by
      conv_lhs => rw [← List.takeWhile_append_dropWhile (p := isPyWS) (l := R)]
      exact subFence_ws_pass _ _ (mem_takeWhile_ws isPyWS R)
    have e5 : pyStripChars (subFence R) = pyStripChars (subFence (R.dropWhile isPyWS)) := by
      rw [e4]
      exact pyStrip_ws_prefix _ _ (mem_takeWhile_ws isPyWS R)
    rw [e5]
    rcases subFence_append_tail (R.dropWhile isPyWS) with h3 | h3
    · rw [h3]
    · rw [h3, pyStrip_append_nl]

theorem extract_json_wrap (b : Bool) (R : String) :
    extract_json (wrapFence b R) = extract_json R := by
  unfold extract_json wrapFence
  rw [show (String.mk (fenceOpen b ++ R.data ++ fenceTail)).data
      = fenceOpen b ++ R.data ++ fenceTail from rfl]
  rw [cleaned_wrap]

/-- Forget the diagnostic `raw_response` field (used to compare results up
to the retained raw reply text). -/
def eraseRaw (r : ReviewResult) : ReviewResult :=
  { r with raw_response := sEmpty }

theorem map_eraseRaw_bind {α : Type} (o : Option α) (f g : α → Option ReviewResult)
    (h : ∀ a, (f a).map eraseRaw = (g a).map eraseRaw) :
    (o.bind f).map eraseRaw = (o.bind g).map eraseRaw := by
  cases o <;> simp [h]

theorem validate_raw_irrel (d : Json) (r1 r2 : String) :
    (validate_review d r1).map eraseRaw = (validate_review d r2).map eraseRaw := by
  cases d <;> simp only [validate_review] <;> try rfl
  rename_i fields
  apply map_eraseRaw_bind
  intro catsJ
  apply map_eraseRaw_bind
  intro items
  apply map_eraseRaw_bind
  intro cats
  apply map_eraseRaw_bind
  intro osJ
  cases pyFloat osJ <;> simp [eraseRaw]

/-- Does the text contain three consecutive backticks anywhere? -/
def hasTriple : List Char → Bool
  | c :: cs => fence3 (c :: cs) || hasTriple cs
  | [] => false

theorem isBT2head_isBThead (x : List Char) (h : isBT2head x = true) :
    isBThead x = true := by
  cases x with
  | nil => simp [isBT2head] at h
  | cons a r =>
    simp only [isBT2head, Bool.and_eq_true] at h
    simp [isBThead, h.1]

theorem isBThead_subFence (l : List Char) (h : isBThead (subFence l) = true) :
    isBThead l = true := by
  match l with
  | [] => simp [subFence_nil, isBThead] at h
  | c :: cs =>
    by_cases hf : fence3 (c :: cs) = true
    · simp only [fence3, Bool.and_eq_true] at hf
      simp [isBThead, hf.1]
    · have hf0 : fence3 (c :: cs) = false := by
        revert hf; cases fence3 (c :: cs) <;> simp
      rw [subFence_emit c cs hf0] at h
      simpa [isBThead] using h

theorem isBT2head_subFence (l : List Char) (h : isBT2head (subFence l) = true) :
    isBT2head l = true := by
  match l with
  | [] => simp [subFence_nil, isBT2head] at h
  | c :: cs =>
    by_cases hf : fence3 (c :: cs) = true
    · simp only [fence3, Bool.and_eq_true] at hf
      simp [isBT2head, hf.1, isBT2head_isBThead cs hf.2]
    · have hf0 : fence3 (c :: cs) = false := by
        revert hf; cases fence3 (c :: cs) <;> simp
      rw [subFence_emit c cs hf0] at h
      simp only [isBT2head, Bool.and_eq_true] at h
      simp [isBT2head, h.1, isBThead_subFence cs h.2]

theorem hasTriple_subFence : ∀ l : List Char, hasTriple (subFence l) = false := by
  suffices H : ∀ n : Nat, ∀ l : List Char, l.length ≤ n → hasTriple (subFence l) = false by
    exact fun l => H l.length l (Nat.le_refl _)
  intro n
  induction n using Nat.strong_induction_on with
  | _ n ih =>
    intro l hl
    match l with
    | [] => rfl
    | c :: cs =>
      by_cases hf : fence3 (c :: cs) = true
      · match cs, hf with
        | [], hf => simp [fence3, isBT2head] at hf
        | [c2], hf => simp [fence3, isBT2head, isBThead] at hf
        | c2 :: c3 :: rest, hf =>
          rw [subFence_fence _ _ _ _ hf]
          have hlen : (dropWS (dropJson rest)).length ≤ rest.length := by
            have h1 := dropWhile_length_le isPyWS (dropJson rest)
            have h2 := dropJson_length_le rest
            simp only [dropWS]
            omega
          have hr : rest.length < n := by
            simp only [List.length_cons] at hl
            omega
          exact ih rest.length hr _ hlen
      · have hf0 : fence3 (c :: cs) = false := by
          revert hf; cases fence3 (c :: cs) <;> simp
        rw [subFence_emit c cs hf0]
        have hcs : hasTriple (subFence cs) = false := by
          have : cs.length < n := by
            simp only [List.length_cons] at hl
            omega
          exact ih cs.length this cs (Nat.le_refl _)
        have hstep : hasTriple (c :: subFence cs)
            = (fence3 (c :: subFence cs) || hasTriple (subFence cs)) := rfl
        rw [hstep, hcs, Bool.or_false]
        by_contra hcf
        simp only [Bool.not_eq_false] at hcf
        simp only [fence3, Bool.and_eq_true] at hcf
        have h3 : isBT2head cs = true := isBT2head_subFence cs hcf.2
        have hcontr : fence3 (c :: cs) = true := by
          simp [fence3, hcf.1, h3]
        rw [hcontr] at hf0
        exact Bool.noConfusion hf0

/- ── Concrete fixtures (model replies and files) ───────────────────────── -/

/-- The valid reply of the spec's §8 scenario. -/
def sampleReply : String := "\x7b\"language\": \"python\", \"categories\": [\x7b\"category\": \"Readability\", \"score\": 8, \"summary\": \"ok\", \"suggestions\": []\x7d, \x7b\"category\": \"Structure\", \"score\": 6, \"summary\": \"ok\", \"suggestions\": [\"split function\"]\x7d, \x7b\"category\": \"Maintainability\", \"score\": 7, \"summary\": \"ok\", \"suggestions\": []\x7d], \"overall_score\": 7.0, \"tldr\": \"Solid.\"\x7d"

/-- The `ReviewResult` the sample reply parses to. -/
def sampleResult : ReviewResult :=
  { language := Json.str "python"
    categories := [
      ⟨Json.str "Readability", 8, Json.str "ok", Json.arr []⟩,
      ⟨Json.str "Structure", 6, Json.str "ok", Json.arr [Json.str "split function"]⟩,
      ⟨Json.str "Maintainability", 7, Json.str "ok", Json.arr []⟩]
    overall_score := 7
    tldr := Json.str "Solid."
    raw_response := sampleReply }

/-- A reviewable code file whose review yields the sample reply. -/
def sampleFile : FileInput :=
  { path := "a.py", existsF := true, content := "x = 1", remote := Except.ok sampleReply }

/-- A file path that does not exist. -/
def missingFile : FileInput :=
  { path := "gone.py", existsF := false, content := "x = 1", remote := Except.ok sampleReply }

/-- An existing code file with whitespace-only content. -/
def blankFile : FileInput :=
  { path := "e.py", existsF := true, content := "   \n", remote := Except.ok sampleReply }

/-- A reply that is not JSON at all. -/
def proseReply : String := "hello"

/-- A syntactically valid, fence-free JSON reply one of whose string values
contains three backticks. -/
def tripleReply : String := "\x7b\"tldr\": \"use \x60\x60\x60 here\"\x7d"

/-- What `json.loads` alone makes of `tripleReply`. -/
def tripleVal : Json := Json.obj [(kTldr, Json.str "use \x60\x60\x60 here")]

/-- What `_extract_json` makes of `tripleReply`: the interior fence marker
and the whitespace after it are deleted from the string value. -/
def tripleAltered : Json := Json.obj [(kTldr, Json.str "use here")]

/-- A valid reply with `categories` and `overall_score` but neither
`language` nor `tldr`. -/
def noLangTldrReply : String := "\x7b\"categories\": [], \"overall_score\": 7.0\x7d"

/-- The fields of `noLangTldrReply` as parsed. -/
def noLangTldrFields : List (String × Json) :=
  [(kCategories, Json.arr []), (kOverall, Json.num 7)]

/-- The result of reviewing `noLangTldrReply`. -/
def noLangTldrResult : ReviewResult :=
  { language := Json.str sUnknown
    categories := []
    overall_score := 7
    tldr := Json.str sEmpty
    raw_response := noLangTldrReply }

/-- A reply whose single category carries the unknown name `Bogus`. -/
def bogusCatReply : String := "\x7b\"categories\": [\x7b\"category\": \"Bogus\", \"score\": 3, \"summary\": \"m\"\x7d], \"overall_score\": 3.0\x7d"

/-- The result `review_code` builds from `bogusCatReply` — the unknown
category name is carried through verbatim. -/
def bogusCatResult : ReviewResult :=
  { language := Json.str sUnknown
    categories := [⟨Json.str "Bogus", 3, Json.str "m", Json.arr []⟩]
    overall_score := 3
    tldr := Json.str sEmpty
    raw_response := bogusCatReply }

/-- A reply with categories and tldr but no `overall_score`. -/
def noOverallReply : String := "\x7b\"categories\": [], \"tldr\": \"x\"\x7d"

/-- The fields of `noOverallReply` as parsed. -/
def noOverallFields : List (String × Json) :=
  [(kCategories, Json.arr []), (kTldr, Json.str "x")]

/-- An arbitrary code text used where only the request matters. -/
def someCode : String := "x = 1"

/-- An arbitrary raw-reply text. -/
def someRaw : String := "x"

/- ── Claim theorems ────────────────────────────────────────────────────── -/

theorem mapM_loop_parseCat_none : ∀ (cats : List Json) (acc : List CategoryFeedback)
    (c : Json), c ∈ cats → parseCat c = none →
    List.mapM.loop parseCat cats acc = none := by
  intro cats
  induction cats with
  | nil =>
    intro acc c hc
    simp at hc
  | cons hd tl ih =>
    intro acc c hc hn
    rcases List.mem_cons.mp hc with h | h
    · subst h
      simp [List.mapM.loop, hn]
    · cases hp : parseCat hd
      · simp [List.mapM.loop, hp]
      · simp only [List.mapM.loop, hp, Option.some_bind]
        exact ih _ c h hn

theorem mapM_parseCat_none (cats : List Json) (c : Json) (hc : c ∈ cats)
    (hn : parseCat c = none) : cats.mapM parseCat = none :=
  mapM_loop_parseCat_none cats [] c hc hn

/-- C1: whenever `review_file` reaches an actual review that returns a
result `r`, its gate decision `passed` equals `r.overall_score >= threshold`
(cli.py line 55); in particular `overall_score == threshold` passes — the
comparison is inclusive. -/
theorem c1_gate_is_inclusive_ge (f : FileInput) (t : ℚ) (r : ReviewResult)
    (he : f.existsF = true)
    (hs : pathSuffix f.path ∈ code_extensions)
    (hc : (pyStrip f.content).isEmpty = false)
    (hr : (review_code (some ()) f.content f.remote).outcome = Except.ok r) :
    ((review_file (some ()) f t).passed = true ↔ t ≤ r.overall_score) ∧
    (r.overall_score = t → (review_file (some ()) f t).passed = true) := by
  have hpass : (review_file (some ()) f t).passed = decide (t ≤ r.overall_score) := by
    unfold review_file
    rw [if_neg (by simp [he]), if_neg (by simp [hs]), if_neg (by simp [hc])]
    rcases hrc : review_code (some ()) f.content f.remote with ⟨out, req⟩
    rw [hrc] at hr
    have hout : out = Except.ok r := hr
    subst hout
    rfl
  constructor
  · rw [hpass]
    simp
  · intro hb
    rw [hpass, hb]
    simp

/-- C1 witness: the sample file at the boundary threshold 7.0 (equal to its
overall score) passes. -/
theorem c1_gate_is_inclusive_ge_witness :
    (review_file (some ()) sampleFile 7).passed = true :=
  (c1_gate_is_inclusive_ge sampleFile 7 sampleResult rfl (by decide) rfl rfl).2 rfl

/-- C2: the review pipeline yields no `ReviewResult` (is `none`, hence
never a partially-populated record) whenever the reply fails JSON
extraction, whenever the parsed object lacks `overall_score`, and whenever
some entry of its `categories` array is malformed (fails `parseCat`). -/
theorem c2_malformed_reply_fails (reply : String) :
    (extract_json reply = none → parse_review reply = none) ∧
    (∀ fields, extract_json reply = some (Json.obj fields) →
      jlookup fields kOverall = none → parse_review reply = none) ∧
    (∀ fields cats c, extract_json reply = some (Json.obj fields) →
      jlookup fields kCategories = some (Json.arr cats) →
      c ∈ cats → parseCat c = none → parse_review reply = none) := by
  refine ⟨?_, ?_, ?_⟩
  · intro h
    unfold parse_review
    rw [h]
  · intro fields he ho
    unfold parse_review
    rw [he]
    simp only [validate_review]
    cases hcat : jlookup fields kCategories
    · simp
    · rename_i catsJ
      simp only [Option.some_bind]
      cases hi : pyIter catsJ
      · simp
      · rename_i items
        simp only [Option.some_bind]
        cases hm : items.mapM parseCat
        · simp
        · simp only [Option.some_bind]
          rw [ho]
          simp
  · intro fields cats c he hcats hc hn
    unfold parse_review
    rw [he]
    simp only [validate_review]
    rw [hcats]
    simp only [Option.some_bind]
    rw [show pyIter (Json.arr cats) = some cats from rfl]
    simp only [Option.some_bind]
    rw [mapM_parseCat_none cats c hc hn]
    simp

/-- C2 witness: a prose reply fails extraction and the pipeline, and a
reply lacking `overall_score` fails the pipeline. -/
theorem c2_malformed_reply_fails_witness :
    parse_review proseReply = none ∧ parse_review noOverallReply = none :=
  ⟨(c2_malformed_reply_fails proseReply).1 rfl,
   (c2_malformed_reply_fails noOverallReply).2.1 noOverallFields rfl rfl⟩

/-- C3: a missing file, a file whose suffix is outside the recognized
code-extension set, and a file with empty or whitespace-only content are
all returned by `review_file` as passed (skipped) and never invoke the
remote service. -/
theorem c3_skips_never_call_service (client : Option Unit) (f : FileInput) (t : ℚ)
    (h : f.existsF = false ∨ pathSuffix f.path ∉ code_extensions ∨
      (pyStrip f.content).isEmpty = true) :
    (review_file client f t).passed = true ∧ (review_file client f t).called = false := by
  unfold review_file
  rcases h with h | h | h
  · simp [h]
  · by_cases he : f.existsF = false
    · simp [he]
    · simp [he, h]
  · by_cases he : f.existsF = false
    · simp [he]
    · by_cases hs : pathSuffix f.path ∈ code_extensions
      · simp [he, hs, h]
      · simp [he, hs]

/-- C3 witness: the missing file is skipped and the service not called. -/
theorem c3_skips_never_call_service_witness :
    (review_file (some ()) missingFile 6).passed = true ∧
    (review_file (some ()) missingFile 6).called = false :=
  c3_skips_never_call_service (some ()) missingFile 6 (Or.inl rfl)

theorem filter_isEmpty_eq_all (files : List FileInput) (p : FileInput → Bool) :
    (files.filter (fun f => !p f)).isEmpty = files.all p := by
  induction files with
  | nil => rfl
  | cons f fs ih =>
    cases hp : p f
    · simp [List.filter_cons, List.all_cons, hp]
    · simp [List.filter_cons, List.all_cons, hp, ih]

/-- C4: the CLI exit code is 0 exactly when a credential is configured and
every file's `review_file` outcome is passed (skipped files pass, files
that error during review fail, by `review_file`'s construction); in every
other case — some file below threshold, some file erroring, or no
credential — it is 1. -/
theorem c4_exit_code (key : Option String) (t : ℚ) (files : List FileInput) :
    (cliMain key t files =
      if keyPresent key && files.all (fun f => (review_file (some ()) f t).passed)
      then 0 else 1) ∧
    (∀ f : FileInput, (review_code (some ()) f.content f.remote).outcome.isOk = false →
      (review_file (some ()) f t).passed = true →
      (review_file (some ()) f t).called = false) := by
  constructor
  · unfold cliMain
    cases hk : keyPresent key
    · simp
    · by_cases he : files = []
      · subst he
        simp
      · have hne : files.isEmpty = false := by
          cases files
          · exact absurd rfl he
          · rfl
        simp [hne, filter_isEmpty_eq_all files (fun f => (review_file (some ()) f t).passed)]
  · intro f herr hpass
    unfold review_file at hpass ⊢
    by_cases he : f.existsF = false
    · simp [he]
    · by_cases hs : pathSuffix f.path ∈ code_extensions
      · by_cases hc : (pyStrip f.content).isEmpty
        · simp [he, hs, hc]
        · exfalso
          rcases hrc : review_code (some ()) f.content f.remote with ⟨out, req⟩
          rw [hrc] at herr
          rw [hrc] at hpass
          cases out with
          | ok r => simp [Except.isOk, Except.toBool] at herr
          | error e => simp [he, hs, hc] at hpass
      · simp [he, hs]

/-- C5 counterexample: a reply whose category name `Bogus` is outside
`REVIEW_CATEGORIES` is not rejected — `review_code` returns a
`ReviewResult` carrying the unknown category verbatim. -/
theorem c5_unknown_category_counterexample :
    (review_code (some ()) someCode (Except.ok bogusCatReply)).outcome
      = Except.ok bogusCatResult ∧
    bogusCatResult.categories.map (fun c => c.category) = [Json.str "Bogus"] ∧
    "Bogus" ∉ REVIEW_CATEGORIES :=
  ⟨rfl, rfl, by decide⟩

/-- A reply object whose single category entry carries an arbitrary name. -/
def catReplyJson (name : String) : Json :=
  Json.obj [(kCategories, Json.arr [Json.obj [(kCategory, Json.str name),
    (kScore, Json.num 3), (kSummary, Json.str "m")]]), (kOverall, Json.num 3)]

/-- C5 amended: `review_code` performs no category-name validation at all
(`REVIEW_CATEGORIES` is never consulted): for every string `name`, a reply
whose category entry is named `name` validates successfully and the name is
carried into the `ReviewResult` verbatim. -/
theorem c5_no_category_name_validation (name : String) (raw : String) :
    validate_review (catReplyJson name) raw =
      some { language := Json.str sUnknown
             categories := [⟨Json.str name, 3, Json.str "m", Json.arr []⟩]
             overall_score := 3
             tldr := Json.str sEmpty
             raw_response := raw } := rfl

/-- C6 counterexample: with a configured client, `review_code` applied to
the empty code string still issues the remote request (and returns a
normal result) — it does not reject empty input before the request. -/
theorem c6_empty_input_still_requests :
    (review_code (some ()) sEmpty (Except.ok sampleReply)).requested = true ∧
    (review_code (some ()) sEmpty (Except.ok sampleReply)).outcome
      = Except.ok sampleResult :=
  ⟨rfl, rfl⟩

/-- C6 amended: the rejection of empty/whitespace-only input before any
request lives in the CLI caller, not in `review_code`: `review_file` skips
such files without a service call, while `review_code` itself issues the
request for every input once a client is configured. -/
theorem c6_emptiness_checked_by_caller (client : Option Unit) (f : FileInput) (t : ℚ)
    (he : f.existsF = true)
    (hs : pathSuffix f.path ∈ code_extensions)
    (hc : (pyStrip f.content).isEmpty = true) :
    review_file client f t = ⟨true, 0, false⟩ ∧
    (∀ (code : String) (remote : Except Unit String),
      (review_code (some ()) code remote).requested = true) := by
  constructor
  · unfold review_file
    rw [if_neg (by simp [he]), if_neg (by simp [hs]), if_pos hc]
  · intro code remote
    cases remote with
    | error e => rfl
    | ok raw =>
      show (match parse_review raw with
        | some r => ({ outcome := Except.ok r, requested := true } : ReviewCall)
        | none => { outcome := Except.error ReviewError.malformed, requested := true }).requested
        = true
      cases parse_review raw <;> rfl

/-- C6 witness: a whitespace-only file is skipped without a call, and
`review_code` on the empty string issues a request. -/
theorem c6_emptiness_checked_by_caller_witness :
    review_file (some ()) blankFile 6 = ⟨true, 0, false⟩ ∧
    (review_code (some ()) sEmpty (Except.ok someRaw)).requested = true :=
  ⟨(c6_emptiness_checked_by_caller (some ()) blankFile 6 rfl (by decide) rfl).1,
   (c6_emptiness_checked_by_caller (some ()) blankFile 6 rfl (by decide) rfl).2
     sEmpty (Except.ok someRaw)⟩

/-- C7 counterexample: a fenced reply and the bare reply parse to the same
JSON value, but NOT to the same `ReviewResult`: the `raw_response` field
retains the original (wrapped) text verbatim, so the two results differ. -/
theorem c7_wrapped_result_differs :
    (parse_review (wrapFence true sampleReply)).isSome = true ∧
    (parse_review sampleReply).isSome = true ∧
    parse_review (wrapFence true sampleReply) ≠ parse_review sampleReply := by
  refine ⟨rfl, rfl, ?_⟩
  intro h
  have h2 := congrArg (Option.map (fun r => r.raw_response)) h
  have e1 : (parse_review (wrapFence true sampleReply)).map (fun r => r.raw_response)
      = some (wrapFence true sampleReply) := rfl
  have e2 : (parse_review sampleReply).map (fun r => r.raw_response)
      = some sampleReply := rfl
  rw [e1, e2] at h2
  have h3 := Option.some.inj h2
  exact absurd h3 (by decide)

/-- C7 amended: fence-stripping is idempotent at the parsed-value level —
`_extract_json` of a reply wrapped in a leading/trailing fence (with or
without a `json` tag) equals `_extract_json` of the bare reply, for every
reply text — and the resulting `ReviewResult`s agree on every field except
the diagnostic `raw_response`. -/
theorem c7_fence_strip_idempotent (b : Bool) (R : String) :
    extract_json (wrapFence b R) = extract_json R ∧
    (parse_review (wrapFence b R)).map eraseRaw = (parse_review R).map eraseRaw := by
  refine ⟨extract_json_wrap b R, ?_⟩
  unfold parse_review
  rw [extract_json_wrap b R]
  cases h : extract_json R
  · rfl
  · exact validate_raw_irrel _ _ _

/-- C8 counterexample: a valid reply with `tldr` absent succeeds, but the
default it receives is the empty string — not a non-empty placeholder. -/
theorem c8_tldr_default_is_empty :
    parse_review noLangTldrReply = some noLangTldrResult ∧
    noLangTldrResult.tldr = Json.str sEmpty ∧
    sEmpty.isEmpty = true :=
  ⟨rfl, rfl, rfl⟩

/-- C8 amended: an otherwise-valid reply missing `language` and `tldr`
still succeeds; `language` defaults to the clearly-marked non-empty
placeholder `Unknown`, while `tldr` defaults to the empty string (an empty,
not a non-empty, placeholder). -/
theorem c8_missing_fields_default (fields : List (String × Json)) (raw : String)
    (r : ReviewResult)
    (hl : jlookup fields kLanguage = none) (ht : jlookup fields kTldr = none)
    (h : validate_review (Json.obj fields) raw = some r) :
    r.language = Json.str sUnknown ∧ r.tldr = Json.str sEmpty := by
  simp only [validate_review] at h
  cases hc : jlookup fields kCategories <;> rw [hc] at h
  · simp at h
  · rename_i catsJ
    simp only [Option.some_bind] at h
    cases hi : pyIter catsJ <;> rw [hi] at h
    · simp at h
    · rename_i items
      simp only [Option.some_bind] at h
      cases hm : items.mapM parseCat <;> rw [hm] at h
      · simp at h
      · rename_i cats
        simp only [Option.some_bind] at h
        cases ho : jlookup fields kOverall <;> rw [ho] at h
        · simp at h
        · rename_i osJ
          simp only [Option.some_bind] at h
          cases hq : pyFloat osJ <;> rw [hq] at h
          · simp at h
          · rename_i q
            have h2 : some
                ({ language := (jlookup fields kLanguage).getD (Json.str sUnknown)
                   categories := cats
                   overall_score := round1 q
                   tldr := (jlookup fields kTldr).getD (Json.str sEmpty)
                   raw_response := raw } : ReviewResult) = some r := h
            have h3 := Option.some.inj h2
            rw [← h3]
            simp [hl, ht]

/-- C8 witness: the concrete reply with both fields absent. -/
theorem c8_missing_fields_default_witness :
    noLangTldrResult.language = Json.str sUnknown ∧
    noLangTldrResult.tldr = Json.str sEmpty :=
  c8_missing_fields_default noLangTldrFields noLangTldrReply noLangTldrResult rfl rfl rfl

/-- C10: the fence substitution of `_extract_json` applies everywhere in
the reply — no three consecutive backticks survive anywhere in its output —
and consequently a fence-free, syntactically valid JSON reply whose string
value contains three backticks is altered: `_extract_json` returns a value
different from the reply's actual JSON value. -/
theorem c10_fence_sub_global :
    (∀ l : List Char, hasTriple (subFence l) = false) ∧
    jsonParse tripleReply = some tripleVal ∧
    extract_json tripleReply = some tripleAltered ∧
    tripleVal ≠ tripleAltered := by
  refine ⟨hasTriple_subFence, rfl, rfl, ?_⟩
  intro h
  simp only [tripleVal, tripleAltered, Json.obj.injEq, List.cons.injEq, Prod.mk.injEq,
    Json.str.injEq, and_true, true_and] at h
  exact absurd h (by decide)
